import Mathlib

/-!
Verification development for the krnlstring crate (`src/lib.rs`), a safe
wrapper `OwnedUnicodeString` around the Windows `UNICODE_STRING` descriptor.

The embedding below translates the crate's data model and operations.
Machine integers (`u16` fields of `UNICODE_STRING`, `usize` counts) are
modelled as `Nat` with explicit `% 65536` at every point where the Rust code
performs a truncating `as u16` cast or wrapping `u16` arithmetic (release
overflow semantics, which is also what the crate's own documentation
describes: values wrap silently).

Heap pointers are modelled by the identifier of the allocation they point
into: `alloc::vec::Vec<u16>` is modelled by `RVec`, carrying an allocation
id, a capacity (in units) and the list of initialised units.  A `push` or
`extend` that needs more room than the current capacity reallocates, i.e.
moves the data to a fresh allocation id; the exact amortised growth value
chosen for the new capacity is immaterial to every theorem below.  Reading
memory through a raw pointer (`slice::from_raw_parts`) is defined exactly
when the pointer matches the vector's current allocation and the read stays
within the initialised prefix; otherwise the read is undefined behaviour and
the model returns `none`.  Likewise, Rust slice indexing `&v[..n]` panics
when `n` exceeds the length, which the model renders as `none`.
-/

/-- A raw pointer, modelled as the id of the heap allocation it points at
(always at offset 0 in this crate). -/
abbrev Ptr := Nat

/-- Model of `alloc::vec::Vec<u16>`: current allocation id, capacity in
units, and the initialised contents (each entry a `u16` value). -/
structure RVec where
  allocId : Nat
  cap : Nat
  data : List Nat
  deriving DecidableEq, Repr

/-- Model of `Vec::push`: appends one unit; reallocates (fresh allocation
id, amortised-grown capacity) exactly when the vector is full. -/
def RVec.push (v : RVec) (x : Nat) : RVec :=
  if v.data.length < v.cap then
    { v with data := v.data ++ [x] }
  else
    { allocId := v.allocId + 1,
      cap := max (2 * v.cap) (v.data.length + 1),
      data := v.data ++ [x] }

/-- Model of `Vec::extend` from a slice: appends the units, reallocating
(fresh allocation id) exactly when the spare capacity does not suffice. -/
def RVec.extend (v : RVec) (xs : List Nat) : RVec :=
  if v.data.length + xs.length ≤ v.cap then
    { v with data := v.data ++ xs }
  else
    { allocId := v.allocId + 1,
      cap := max (2 * v.cap) (v.data.length + xs.length),
      data := v.data ++ xs }

/-- The Windows `UNICODE_STRING` descriptor: `Length` and `MaximumLength`
are `u16` byte counts, `Buffer` a raw `*mut u16`. -/
structure UNICODE_STRING where
  Length : Nat
  MaximumLength : Nat
  Buffer : Ptr
  deriving DecidableEq, Repr

/-- The crate's `OwnedUnicodeString`: the descriptor plus the owned
UTF-16 buffer. -/
structure OwnedUnicodeString where
  unicode_string : UNICODE_STRING
  buffer : RVec
  deriving DecidableEq, Repr

/-- `fn is_null_terminated(&self) -> bool`: `self.buffer.last() == Some(&0)`. -/
def OwnedUnicodeString.is_null_terminated (s : OwnedUnicodeString) : Bool :=
  decide (s.buffer.data.getLast? = some 0)

/-- `fn ensure_is_null_terminated(&mut self)`: if not null-terminated, push
a zero unit and add `size_of::<u16>()` to `MaximumLength` (wrapping `u16`
addition). -/
def OwnedUnicodeString.ensure_is_null_terminated (s : OwnedUnicodeString) :
    OwnedUnicodeString :=
  if s.is_null_terminated then s
  else
    { unicode_string :=
        { s.unicode_string with
          MaximumLength := (s.unicode_string.MaximumLength + 2) % 65536 },
      buffer := s.buffer.push 0 }

/-- The reverse scan of `compute_size`: length of the initial run of zero
units (`for &value in iter().rev() { if value == 0 { count += 1 } else break }`). -/
def zeroRunLen : List Nat → Nat
  | [] => 0
  | x :: xs => if x = 0 then zeroRunLen xs + 1 else 0

/-- `fn compute_size(&mut self)`: `maximum_length = (len * 2) as u16`; when
null-terminated, `count` is the trailing-zero run; then
`Length = maximum_length - (count * 2) as u16` (wrapping `u16` subtraction,
written here as addition of 65536 before the subtraction and reduction
modulo 65536) and `MaximumLength = maximum_length`. -/
def OwnedUnicodeString.compute_size (s : OwnedUnicodeString) : OwnedUnicodeString :=
  let maximum_length := (s.buffer.data.length * 2) % 65536
  let count := if s.is_null_terminated then zeroRunLen s.buffer.data.reverse else 0
  let length := (maximum_length + 65536 - count * 2 % 65536) % 65536
  { s with unicode_string :=
      { s.unicode_string with Length := length, MaximumLength := maximum_length } }

/-- `impl From<Vec<u16>>`: takes ownership of the vector, stores
`value.as_mut_ptr()` in `Buffer` (moving a `Vec` does not change its heap
allocation), zero lengths, then `compute_size`. -/
def OwnedUnicodeString.fromVec (value : RVec) : OwnedUnicodeString :=
  OwnedUnicodeString.compute_size
    { unicode_string := { Length := 0, MaximumLength := 0, Buffer := value.allocId },
      buffer := value }

/-- UTF-16 encoding of one Unicode scalar value (`char::encode_utf16`):
one unit below U+10000, otherwise a surrogate pair. -/
def encodeUtf16Char (c : Nat) : List Nat :=
  if c < 65536 then [c]
  else [55296 + (c - 65536) / 1024, 56320 + (c - 65536) % 1024]

/-- UTF-16 encoding of a text, the text being the list of its Unicode
scalar values (`str::encode_utf16`). -/
def encodeUtf16 (t : List Nat) : List Nat :=
  (t.map encodeUtf16Char).flatten

/-- `impl From<&str>`: encode to UTF-16, collect into a fresh vector, and
build via `From<Vec<u16>>`.  `collect` yields a fresh allocation whose
capacity is at least the length; the model uses the length. -/
def OwnedUnicodeString.fromStr (t : List Nat) : OwnedUnicodeString :=
  OwnedUnicodeString.fromVec
    { allocId := 0, cap := (encodeUtf16 t).length, data := encodeUtf16 t }

/-- Model of `slice::from_raw_parts(s.unicode_string.Buffer, n)` against the
owned vector: defined (`some`) exactly when the descriptor's pointer refers
to the vector's current allocation and the read stays inside the
initialised prefix; any other read is undefined behaviour (`none`). -/
def readBuffer (s : OwnedUnicodeString) (n : Nat) : Option (List Nat) :=
  if s.unicode_string.Buffer = s.buffer.allocId ∧ n ≤ s.buffer.data.length then
    some (s.buffer.data.take n)
  else none

/-- `core::char::decode_utf16` with every `Err` replaced by U+FFFD (65533),
exactly as `Display::fmt` does: a non-surrogate unit decodes to itself; a
lone low surrogate yields one replacement; a high surrogate followed by a
low surrogate combines into one scalar; a high surrogate followed by
anything else (or by the end) yields one replacement consuming only the
high surrogate. -/
def decodeUtf16Repl : List Nat → List Nat
  | [] => []
  | [u] => if u < 55296 ∨ 57343 < u then [u] else [65533]
  | u :: u2 :: rest =>
    if u < 55296 ∨ 57343 < u then u :: decodeUtf16Repl (u2 :: rest)
    else if 56320 ≤ u then 65533 :: decodeUtf16Repl (u2 :: rest)
    else if 56320 ≤ u2 ∧ u2 ≤ 57343 then
      (65536 + (u - 55296) * 1024 + (u2 - 56320)) :: decodeUtf16Repl rest
    else 65533 :: decodeUtf16Repl (u2 :: rest)

/-- `impl fmt::Display`: reads `Length / 2` units starting at the raw
`Buffer` pointer, then decodes them from UTF-16 with replacement.  The
output is the list of scalar values written to the formatter. -/
def OwnedUnicodeString.display (s : OwnedUnicodeString) : Option (List Nat) :=
  (readBuffer s (s.unicode_string.Length / 2)).map decodeUtf16Repl

/-- `impl Add`: reads the right operand's logical slice (`Length / 2` units)
through its raw `Buffer` pointer, extends the left operand's whole physical
buffer with it, then `compute_size`. -/
def OwnedUnicodeString.add (a rhs : OwnedUnicodeString) : Option OwnedUnicodeString :=
  (readBuffer rhs (rhs.unicode_string.Length / 2)).map fun rhs_slice =>
    OwnedUnicodeString.compute_size { a with buffer := a.buffer.extend rhs_slice }

/-- `impl PartialEq`: slices `Length / 2` units out of each owned vector
(panicking — `none` — if a slice bound exceeds the vector's length) and
compares them unit for unit. -/
def OwnedUnicodeString.beq (a b : OwnedUnicodeString) : Option Bool :=
  if a.unicode_string.Length / 2 ≤ a.buffer.data.length ∧
     b.unicode_string.Length / 2 ≤ b.buffer.data.length then
    some (decide (a.buffer.data.take (a.unicode_string.Length / 2) =
                  b.buffer.data.take (b.unicode_string.Length / 2)))
  else none

/-- `impl Into<PCWSTR> for &mut OwnedUnicodeString`: ensure termination,
then return `self.buffer.as_ptr()` (the vector's current allocation)
together with the mutated string. -/
def OwnedUnicodeString.intoPCWSTR (s : OwnedUnicodeString) :
    OwnedUnicodeString × Ptr :=
  let t := s.ensure_is_null_terminated
  (t, t.buffer.allocId)

/-- `impl Into<PWSTR> for &mut OwnedUnicodeString`: same as the `PCWSTR`
form but yielding `as_mut_ptr()`. -/
def OwnedUnicodeString.intoPWSTR (s : OwnedUnicodeString) :
    OwnedUnicodeString × Ptr :=
  let t := s.ensure_is_null_terminated
  (t, t.buffer.allocId)

/-- Specification-level trailing-zero-run count of a buffer: the length of
the longest suffix consisting only of zero units. -/
def trailingRun (l : List Nat) : Nat :=
  (l.reverse.takeWhile (fun x => x == 0)).length

/-! ### Bridge lemmas -/

theorem zeroRunLen_eq_length_takeWhile (l : List Nat) :
    zeroRunLen l = (l.takeWhile (fun x => x == 0)).length := by
  induction l with
  | nil => rfl
  | cons x xs ih =>
    by_cases hx : x = 0
    · simp [zeroRunLen, hx, List.takeWhile_cons, ih]
    · simp [zeroRunLen, hx, List.takeWhile_cons]

theorem trailingRun_le (l : List Nat) : trailingRun l ≤ l.length := by
  have h : (l.reverse.takeWhile (fun x => x == 0)).length ≤ l.reverse.length :=
    (l.reverse.takeWhile_sublist _).length_le
  simpa [trailingRun] using h

theorem count_if_eq_trailingRun (l : List Nat) :
    (if l.getLast? = some 0 then zeroRunLen l.reverse else 0) = trailingRun l := by
  rcases hr : l.reverse with _ | ⟨x, xs⟩
  · have hl : l = [] := by simpa using congrArg List.reverse hr
    subst hl; rfl
  · have hlast : l.getLast? = some x := by
      rw [← List.head?_reverse, hr]; rfl
    by_cases hx : x = 0
    · subst hx
      rw [hlast, if_pos rfl, trailingRun, hr, zeroRunLen_eq_length_takeWhile]
    · rw [hlast, if_neg (by simpa using hx), trailingRun, hr,
        List.takeWhile_cons_of_neg (by simpa using hx)]
      rfl

theorem is_null_terminated_count (s : OwnedUnicodeString) :
    (if s.is_null_terminated then zeroRunLen s.buffer.data.reverse else 0) =
      trailingRun s.buffer.data := by
  rw [← count_if_eq_trailingRun s.buffer.data]
  simp [OwnedUnicodeString.is_null_terminated]

theorem compute_size_buffer (s : OwnedUnicodeString) :
    s.compute_size.buffer = s.buffer := rfl

theorem compute_size_Buffer (s : OwnedUnicodeString) :
    s.compute_size.unicode_string.Buffer = s.unicode_string.Buffer := rfl

theorem compute_size_MaximumLength (s : OwnedUnicodeString) :
    s.compute_size.unicode_string.MaximumLength =
      (s.buffer.data.length * 2) % 65536 := rfl

theorem compute_size_Length (s : OwnedUnicodeString) :
    s.compute_size.unicode_string.Length =
      ((s.buffer.data.length * 2) % 65536 + 65536 -
        trailingRun s.buffer.data * 2 % 65536) % 65536 := by
  simp only [OwnedUnicodeString.compute_size, is_null_terminated_count]

theorem compute_size_Length_div_two_le (s : OwnedUnicodeString) :
    s.compute_size.unicode_string.Length / 2 ≤ s.buffer.data.length := by
  have hk : trailingRun s.buffer.data ≤ s.buffer.data.length :=
    trailingRun_le s.buffer.data
  rw [compute_size_Length]
  omega

theorem trailingRun_eq_zero (l : List Nat) (h : l.getLast? ≠ some 0) :
    trailingRun l = 0 := by
  rw [← count_if_eq_trailingRun l, if_neg h]

theorem trailingRun_concat_zero (l : List Nat) :
    trailingRun (l ++ [0]) = trailingRun l + 1 := by
  simp [trailingRun, List.reverse_append, List.takeWhile_cons, Nat.add_comm]

theorem trailingRun_append_replicate_zero (l : List Nat) (k : Nat) :
    trailingRun (l ++ List.replicate k 0) = trailingRun l + k := by
  induction k with
  | zero => simp
  | succ k ih =>
    rw [List.replicate_succ', ← List.append_assoc, trailingRun_concat_zero, ih]
    omega

theorem encodeUtf16_cons (c : Nat) (t : List Nat) :
    encodeUtf16 (c :: t) = encodeUtf16Char c ++ encodeUtf16 t := by
  simp [encodeUtf16]

theorem encodeUtf16Char_ne_nil (c : Nat) : encodeUtf16Char c ≠ [] := by
  unfold encodeUtf16Char
  split <;> simp

theorem encodeUtf16_ne_nil (c : Nat) (t : List Nat) : encodeUtf16 (c :: t) ≠ [] := by
  rw [encodeUtf16_cons]
  intro h
  exact encodeUtf16Char_ne_nil c (List.append_eq_nil.mp h).1

theorem decodeUtf16Repl_cons_of_nonsurrogate (u : Nat) (us : List Nat)
    (h : u < 55296 ∨ 57343 < u) :
    decodeUtf16Repl (u :: us) = u :: decodeUtf16Repl us := by
  cases us with
  | nil =>
    simp only [decodeUtf16Repl]
    rw [if_pos h]
  | cons v vs =>
    simp only [decodeUtf16Repl]
    rw [if_pos h]

theorem decodeUtf16Repl_encodeUtf16 (t : List Nat)
    (hwf : ∀ c ∈ t, c < 1114112 ∧ (c < 55296 ∨ 57343 < c)) :
    decodeUtf16Repl (encodeUtf16 t) = t := by
  induction t with
  | nil => rfl
  | cons c t ih =>
    have hc := hwf c (by simp)
    have ht : ∀ d ∈ t, d < 1114112 ∧ (d < 55296 ∨ 57343 < d) := by
      intro d hd
      exact hwf d (by simp [hd])
    rw [encodeUtf16_cons]
    by_cases h1 : c < 65536
    · rw [encodeUtf16Char, if_pos h1, List.cons_append, List.nil_append,
        decodeUtf16Repl_cons_of_nonsurrogate c _ hc.2, ih ht]
    · rw [encodeUtf16Char, if_neg h1, List.cons_append, List.cons_append,
        List.nil_append]
      simp only [decodeUtf16Repl]
      rw [if_neg (by omega), if_neg (by omega), if_pos (by omega), ih ht]
      have hval : 65536 + (55296 + (c - 65536) / 1024 - 55296) * 1024 +
          (56320 + (c - 65536) % 1024 - 56320) = c := by omega
      rw [hval]

theorem decodeUtf16Repl_append_high (us : List Nat)
    (h : ∀ u ∈ us, u < 55296 ∨ 57343 < u) :
    decodeUtf16Repl (us ++ [55296]) = us ++ [65533] := by
  induction us with
  | nil => simp [decodeUtf16Repl]
  | cons u us ih =>
    have hu := h u (by simp)
    have hus : ∀ v ∈ us, v < 55296 ∨ 57343 < v := by
      intro v hv
      exact h v (by simp [hv])
    rw [List.cons_append, decodeUtf16Repl_cons_of_nonsurrogate u _ hu, ih hus,
      List.cons_append]

theorem getLast?_encodeUtf16 (t : List Nat) (h : t.getLast? ≠ some 0) :
    (encodeUtf16 t).getLast? ≠ some 0 := by
  induction t with
  | nil => simp [encodeUtf16]
  | cons c t ih =>
    rcases t with _ | ⟨d, t'⟩
    · have hc : c ≠ 0 := by
        intro h0
        subst h0
        simp at h
      rw [encodeUtf16_cons]
      unfold encodeUtf16Char
      split
      · simpa [encodeUtf16] using hc
      · simp [encodeUtf16]
    · have h' : (d :: t').getLast? ≠ some 0 := by
        rwa [List.getLast?_cons_cons] at h
      rw [encodeUtf16_cons, List.getLast?_append]
      rcases hE : (encodeUtf16 (d :: t')).getLast? with _ | y
      · exact absurd (List.getLast?_eq_none_iff.mp hE) (encodeUtf16_ne_nil d t')
      · have hy : y ≠ 0 := by
          intro h0
          subst h0
          exact ih h' hE
        simpa [Option.or] using hy

theorem compute_size_Length_of_no_overflow (s : OwnedUnicodeString)
    (h : s.buffer.data.length * 2 < 65536) :
    s.compute_size.unicode_string.Length =
      (s.buffer.data.length - trailingRun s.buffer.data) * 2 := by
  have hk := trailingRun_le s.buffer.data
  rw [compute_size_Length]
  omega

theorem fromVec_buffer (v : RVec) : (OwnedUnicodeString.fromVec v).buffer = v := rfl

theorem fromVec_Buffer (v : RVec) :
    (OwnedUnicodeString.fromVec v).unicode_string.Buffer = v.allocId := rfl

theorem fromVec_MaximumLength (v : RVec) :
    (OwnedUnicodeString.fromVec v).unicode_string.MaximumLength =
      (v.data.length * 2) % 65536 := rfl

theorem fromVec_Length (v : RVec) :
    (OwnedUnicodeString.fromVec v).unicode_string.Length =
      ((v.data.length * 2) % 65536 + 65536 - trailingRun v.data * 2 % 65536) % 65536 :=
  compute_size_Length _

theorem fromVec_Length_of_no_overflow (v : RVec) (h : v.data.length * 2 < 65536) :
    (OwnedUnicodeString.fromVec v).unicode_string.Length =
      (v.data.length - trailingRun v.data) * 2 :=
  compute_size_Length_of_no_overflow _ h

theorem RVec_data_mk (a c : Nat) (l : List Nat) : (RVec.mk a c l).data = l := rfl

theorem ensure_noop_of_terminated (s : OwnedUnicodeString)
    (h : s.is_null_terminated = true) : s.ensure_is_null_terminated = s := by
  unfold OwnedUnicodeString.ensure_is_null_terminated
  rw [if_pos h]

/-! ### Claims -/

/-- C2 counterexample: the state built by the public operation
`From<Vec<u16>>` from a 32768-unit vector ending in exactly one zero unit is
itself the result of a recompute call, yet its recomputed descriptor has
`Length = 65534 > MaximumLength = 0` (the capacity wrapped), violating both
parts of the claimed invariant. -/
theorem C2_counterexample :
    ¬ ((OwnedUnicodeString.fromVec ⟨0, 32768, List.replicate 32767 1 ++ [0]⟩).unicode_string.Length ≤
        (OwnedUnicodeString.fromVec ⟨0, 32768, List.replicate 32767 1 ++ [0]⟩).unicode_string.MaximumLength ∧
       (OwnedUnicodeString.fromVec ⟨0, 32768, List.replicate 32767 1 ++ [0]⟩).unicode_string.MaximumLength =
        (OwnedUnicodeString.fromVec ⟨0, 32768, List.replicate 32767 1 ++ [0]⟩).buffer.data.length * 2) := by
  have h0 : trailingRun (List.replicate 32767 (1 : Nat)) = 0 := by
    rw [trailingRun, List.reverse_replicate, List.takeWhile_replicate]
    rw [if_neg (by decide)]
    rfl
  have htr : trailingRun (List.replicate 32767 (1 : Nat) ++ [0]) = 1 := by
    rw [trailingRun_concat_zero, h0]
  have hlen : (List.replicate 32767 (1 : Nat) ++ [0]).length = 32768 := by
    rw [List.length_append, List.length_replicate]
    rfl
  rw [fromVec_Length, fromVec_MaximumLength, fromVec_buffer, RVec_data_mk]
  rw [htr, hlen]
  decide

/-- C2 (amended): after any recompute call on a buffer holding at most
32767 code units, the descriptor satisfies
`logical_length_bytes ≤ capacity_bytes` and
`capacity_bytes = units_count * 2`. -/
theorem C2_recompute_invariants (s : OwnedUnicodeString)
    (h : s.buffer.data.length ≤ 32767) :
    s.compute_size.unicode_string.Length ≤ s.compute_size.unicode_string.MaximumLength ∧
    s.compute_size.unicode_string.MaximumLength = s.buffer.data.length * 2 := by
  have hk := trailingRun_le s.buffer.data
  rw [compute_size_Length, compute_size_MaximumLength]
  omega

/-- Witness for C2 at the buffer built from the text "H". -/
theorem C2_recompute_invariants_witness :
    (OwnedUnicodeString.fromStr [72]).buffer.data.length ≤ 32767 ∧
    ((OwnedUnicodeString.fromStr [72]).compute_size.unicode_string.Length ≤
      (OwnedUnicodeString.fromStr [72]).compute_size.unicode_string.MaximumLength ∧
     (OwnedUnicodeString.fromStr [72]).compute_size.unicode_string.MaximumLength =
      (OwnedUnicodeString.fromStr [72]).buffer.data.length * 2) :=
  ⟨by decide, C2_recompute_invariants (OwnedUnicodeString.fromStr [72]) (by decide)⟩

/-- C3: evaluation of the code at the failing input.  Constructing the
string from a full (capacity = length = 1) vector and extracting a `PCWSTR`
makes `ensure_is_null_terminated` push a zero unit, which reallocates the
vector; the descriptor's `Buffer` field, assigned only in `From<Vec<u16>>`,
is never refreshed and is left pointing at the freed allocation. -/
theorem C3_dangling_buffer_after_extraction :
    (OwnedUnicodeString.fromVec ⟨7, 1, [72]⟩).intoPCWSTR.1.unicode_string.Buffer ≠
      (OwnedUnicodeString.fromVec ⟨7, 1, [72]⟩).intoPCWSTR.1.buffer.allocId := by
  decide

/-- C4: for a buffer of more than 32767 code units, recompute sets
`capacity_bytes` to the unit count times 2 reduced modulo 2^16, and derives
`logical_length_bytes` from that wrapped value by subtracting 2 bytes per
trailing zero unit in wrapping 16-bit arithmetic; no error or panic is
raised (the operation is total). -/
theorem C4_capacity_overflow_wraps (s : OwnedUnicodeString)
    (_h : 32767 < s.buffer.data.length) :
    s.compute_size.unicode_string.MaximumLength = (s.buffer.data.length * 2) % 65536 ∧
    s.compute_size.unicode_string.Length =
      ((s.buffer.data.length * 2) % 65536 + 65536 -
        trailingRun s.buffer.data * 2 % 65536) % 65536 :=
  ⟨compute_size_MaximumLength s, compute_size_Length s⟩

/-- Witness for C4 at a 32768-unit buffer of ones. -/
theorem C4_capacity_overflow_wraps_witness :
    32767 < (OwnedUnicodeString.mk ⟨0, 0, 0⟩ ⟨0, 32768, List.replicate 32768 1⟩).buffer.data.length ∧
    ((OwnedUnicodeString.mk ⟨0, 0, 0⟩ ⟨0, 32768, List.replicate 32768 1⟩).compute_size.unicode_string.MaximumLength =
      ((OwnedUnicodeString.mk ⟨0, 0, 0⟩ ⟨0, 32768, List.replicate 32768 1⟩).buffer.data.length * 2) % 65536 ∧
     (OwnedUnicodeString.mk ⟨0, 0, 0⟩ ⟨0, 32768, List.replicate 32768 1⟩).compute_size.unicode_string.Length =
      (((OwnedUnicodeString.mk ⟨0, 0, 0⟩ ⟨0, 32768, List.replicate 32768 1⟩).buffer.data.length * 2) % 65536 + 65536 -
        trailingRun (OwnedUnicodeString.mk ⟨0, 0, 0⟩ ⟨0, 32768, List.replicate 32768 1⟩).buffer.data * 2 % 65536) % 65536) := by
  have h : 32767 < (OwnedUnicodeString.mk ⟨0, 0, 0⟩ ⟨0, 32768, List.replicate 32768 1⟩).buffer.data.length := by
    show 32767 < (List.replicate 32768 (1 : Nat)).length
    rw [List.length_replicate]
    decide
  exact ⟨h, C4_capacity_overflow_wraps _ h⟩

/-- C5: the null-termination predicate holds iff the buffer ends in a zero
unit (false for the empty buffer); when it holds, ensure-terminated is a
no-op; otherwise it appends exactly one zero unit and adds 2 to
`capacity_bytes` (wrapping 16-bit addition) while leaving
`logical_length_bytes` unchanged. -/
theorem C5_ensure_terminated_contract (s : OwnedUnicodeString) :
    (s.is_null_terminated = true ↔ ∃ l, s.buffer.data = l ++ [0]) ∧
    (s.buffer.data = [] → s.is_null_terminated = false) ∧
    (s.is_null_terminated = true → s.ensure_is_null_terminated = s) ∧
    (s.is_null_terminated = false →
      s.ensure_is_null_terminated.buffer.data = s.buffer.data ++ [0] ∧
      s.ensure_is_null_terminated.unicode_string.MaximumLength =
        (s.unicode_string.MaximumLength + 2) % 65536 ∧
      s.ensure_is_null_terminated.unicode_string.Length = s.unicode_string.Length) := by
  refine ⟨?_, ?_, ?_, ?_⟩
  · simp [OwnedUnicodeString.is_null_terminated, List.getLast?_eq_some_iff]
  · intro h
    simp [OwnedUnicodeString.is_null_terminated, h]
  · intro h
    exact ensure_noop_of_terminated s h
  · intro h
    unfold OwnedUnicodeString.ensure_is_null_terminated
    rw [if_neg (by simp [h])]
    refine ⟨?_, rfl, rfl⟩
    unfold RVec.push
    split <;> rfl

/-- Witness for C5: the terminated buffer [72, 0] is left untouched, and
the unterminated buffer built from "H" gains exactly one zero unit. -/
theorem C5_ensure_terminated_contract_witness :
    (OwnedUnicodeString.fromVec ⟨0, 2, [72, 0]⟩).ensure_is_null_terminated =
      OwnedUnicodeString.fromVec ⟨0, 2, [72, 0]⟩ ∧
    ((OwnedUnicodeString.fromStr [72]).ensure_is_null_terminated.buffer.data =
      (OwnedUnicodeString.fromStr [72]).buffer.data ++ [0] ∧
     (OwnedUnicodeString.fromStr [72]).ensure_is_null_terminated.unicode_string.MaximumLength =
      ((OwnedUnicodeString.fromStr [72]).unicode_string.MaximumLength + 2) % 65536 ∧
     (OwnedUnicodeString.fromStr [72]).ensure_is_null_terminated.unicode_string.Length =
      (OwnedUnicodeString.fromStr [72]).unicode_string.Length) :=
  ⟨(C5_ensure_terminated_contract (OwnedUnicodeString.fromVec ⟨0, 2, [72, 0]⟩)).2.2.1 (by decide),
   (C5_ensure_terminated_contract (OwnedUnicodeString.fromStr [72])).2.2.2 (by decide)⟩

/-- C9: ensure-terminated is idempotent (the second call returns the
buffer state of the first unchanged) and afterwards the buffer ends in a
zero unit. -/
theorem C9_ensure_terminated_idempotent (s : OwnedUnicodeString) :
    s.ensure_is_null_terminated.ensure_is_null_terminated = s.ensure_is_null_terminated ∧
    s.ensure_is_null_terminated.is_null_terminated = true := by
  have hterm : s.ensure_is_null_terminated.is_null_terminated = true := by
    unfold OwnedUnicodeString.ensure_is_null_terminated
    by_cases h : s.is_null_terminated = true
    · rw [if_pos h]
      exact h
    · rw [if_neg h]
      unfold OwnedUnicodeString.is_null_terminated RVec.push
      split <;> simp [List.getLast?_concat]
  exact ⟨ensure_noop_of_terminated _ hterm, hterm⟩

/-- C1: concatenation reads exactly the logical slice (first `Length / 2`
units) of the right operand, appends it to the left operand's entire
physical buffer (trailing zero units of the left operand included, which
thereby stay embedded in the middle of the result), and recomputes: the
result's capacity is the new unit count times 2 (mod 2^16) and, absent
16-bit overflow, its logical length excludes exactly the result's trailing
zero run and nothing else. -/
theorem C1_concat_appends_logical_slice (a b : OwnedUnicodeString)
    (hb : b.unicode_string.Buffer = b.buffer.allocId)
    (hn : b.unicode_string.Length / 2 ≤ b.buffer.data.length) :
    ∃ r, a.add b = some r ∧
      r.buffer.data = a.buffer.data ++ b.buffer.data.take (b.unicode_string.Length / 2) ∧
      r.unicode_string.MaximumLength = (r.buffer.data.length * 2) % 65536 ∧
      (r.buffer.data.length * 2 < 65536 →
        r.unicode_string.Length = (r.buffer.data.length - trailingRun r.buffer.data) * 2) := by
  refine ⟨OwnedUnicodeString.compute_size
    { a with buffer := a.buffer.extend (b.buffer.data.take (b.unicode_string.Length / 2)) },
    ?_, ?_, ?_, ?_⟩
  · unfold OwnedUnicodeString.add readBuffer
    rw [if_pos ⟨hb, hn⟩]
    rfl
  · rw [compute_size_buffer]
    show (a.buffer.extend (b.buffer.data.take (b.unicode_string.Length / 2))).data = _
    unfold RVec.extend
    split <;> rfl
  · rw [compute_size_buffer]
    exact compute_size_MaximumLength _
  · intro hov
    rw [compute_size_buffer] at hov ⊢
    exact compute_size_Length_of_no_overflow _ hov

/-- Witness for C1: a terminated buffer [72, 0] concatenated with the
buffer [66]. -/
theorem C1_concat_appends_logical_slice_witness :
    (OwnedUnicodeString.fromVec ⟨5, 1, [66]⟩).unicode_string.Buffer =
      (OwnedUnicodeString.fromVec ⟨5, 1, [66]⟩).buffer.allocId ∧
    (OwnedUnicodeString.fromVec ⟨5, 1, [66]⟩).unicode_string.Length / 2 ≤
      (OwnedUnicodeString.fromVec ⟨5, 1, [66]⟩).buffer.data.length ∧
    ∃ r, (OwnedUnicodeString.fromVec ⟨0, 2, [72, 0]⟩).add (OwnedUnicodeString.fromVec ⟨5, 1, [66]⟩) = some r ∧
      r.buffer.data = (OwnedUnicodeString.fromVec ⟨0, 2, [72, 0]⟩).buffer.data ++
        (OwnedUnicodeString.fromVec ⟨5, 1, [66]⟩).buffer.data.take
          ((OwnedUnicodeString.fromVec ⟨5, 1, [66]⟩).unicode_string.Length / 2) ∧
      r.unicode_string.MaximumLength = (r.buffer.data.length * 2) % 65536 ∧
      (r.buffer.data.length * 2 < 65536 →
        r.unicode_string.Length = (r.buffer.data.length - trailingRun r.buffer.data) * 2) :=
  ⟨by decide, by decide,
   C1_concat_appends_logical_slice (OwnedUnicodeString.fromVec ⟨0, 2, [72, 0]⟩)
     (OwnedUnicodeString.fromVec ⟨5, 1, [66]⟩) (by decide) (by decide)⟩

/-- C6: equality compares exactly the logical slices (first `Length / 2`
units) of the two operands, unit for unit and case-sensitively; in
particular a buffer and its copy padded with extra trailing zero units
(same logical content, larger capacity) compare equal. -/
theorem C6_equality_compares_logical_slices :
    (∀ a b : OwnedUnicodeString,
      a.unicode_string.Length / 2 ≤ a.buffer.data.length →
      b.unicode_string.Length / 2 ≤ b.buffer.data.length →
      (a.beq b = some true ↔
        a.buffer.data.take (a.unicode_string.Length / 2) =
          b.buffer.data.take (b.unicode_string.Length / 2))) ∧
    (∀ (us : List Nat) (k : Nat), (us.length + k) * 2 < 65536 →
      (OwnedUnicodeString.fromVec ⟨0, us.length, us⟩).beq
        (OwnedUnicodeString.fromVec ⟨1, us.length + k, us ++ List.replicate k 0⟩) =
          some true) := by
  constructor
  · intro a b ha hb
    unfold OwnedUnicodeString.beq
    rw [if_pos ⟨ha, hb⟩]
    simp
  · intro us k hk
    have hjle : trailingRun us ≤ us.length := trailingRun_le us
    have hn2 : us.length * 2 < 65536 := by omega
    have hdataB : (us ++ List.replicate k 0).length = us.length + k := by
      rw [List.length_append, List.length_replicate]
    have htrB : trailingRun (us ++ List.replicate k 0) = trailingRun us + k :=
      trailingRun_append_replicate_zero us k
    have hbufA : (OwnedUnicodeString.fromVec ⟨0, us.length, us⟩).buffer.data = us := by
      rw [fromVec_buffer, RVec_data_mk]
    have hbufB : (OwnedUnicodeString.fromVec ⟨1, us.length + k, us ++ List.replicate k 0⟩).buffer.data =
        us ++ List.replicate k 0 := by
      rw [fromVec_buffer, RVec_data_mk]
    have hLA : (OwnedUnicodeString.fromVec ⟨0, us.length, us⟩).unicode_string.Length =
        (us.length - trailingRun us) * 2 := by
      have h2 : (RVec.mk 0 us.length us).data.length * 2 < 65536 := by
        rw [RVec_data_mk]
        omega
      rw [fromVec_Length_of_no_overflow _ h2, RVec_data_mk]
    have hLB : (OwnedUnicodeString.fromVec ⟨1, us.length + k, us ++ List.replicate k 0⟩).unicode_string.Length =
        (us.length - trailingRun us) * 2 := by
      have h2 : (RVec.mk 1 (us.length + k) (us ++ List.replicate k 0)).data.length * 2 < 65536 := by
        rw [RVec_data_mk, hdataB]
        omega
      rw [fromVec_Length_of_no_overflow _ h2, RVec_data_mk, hdataB, htrB]
      omega
    unfold OwnedUnicodeString.beq
    rw [hbufA, hbufB, hLA, hLB]
    have hc1 : (us.length - trailingRun us) * 2 / 2 ≤ us.length := by omega
    have hc2 : (us.length - trailingRun us) * 2 / 2 ≤ (us ++ List.replicate k 0).length := by
      rw [hdataB]
      omega
    rw [if_pos ⟨hc1, hc2⟩]
    have htake : (us ++ List.replicate k 0).take ((us.length - trailingRun us) * 2 / 2) =
        us.take ((us.length - trailingRun us) * 2 / 2) :=
      List.take_append_of_le_length hc1
    rw [htake]
    simp

/-- Witness for C6: equal one-unit buffers, and a buffer equal to its
two-zero-padded copy. -/
theorem C6_equality_compares_logical_slices_witness :
    ((OwnedUnicodeString.fromStr [72]).beq (OwnedUnicodeString.fromStr [72]) = some true ↔
      (OwnedUnicodeString.fromStr [72]).buffer.data.take
          ((OwnedUnicodeString.fromStr [72]).unicode_string.Length / 2) =
        (OwnedUnicodeString.fromStr [72]).buffer.data.take
          ((OwnedUnicodeString.fromStr [72]).unicode_string.Length / 2)) ∧
    (OwnedUnicodeString.fromVec ⟨0, ([72] : List Nat).length, [72]⟩).beq
      (OwnedUnicodeString.fromVec ⟨1, ([72] : List Nat).length + 2, [72] ++ List.replicate 2 0⟩) =
        some true :=
  ⟨C6_equality_compares_logical_slices.1 (OwnedUnicodeString.fromStr [72])
      (OwnedUnicodeString.fromStr [72]) (by decide) (by decide),
   C6_equality_compares_logical_slices.2 [72] 2 (by decide)⟩

/-- C7: Display decodes exactly the logical slice (not the full physical
buffer) from UTF-16; a run of well-formed units followed by a lone high
surrogate decodes to those units plus exactly one U+FFFD replacement (the
fault is not fatal); and the buffer holding the units of "Hello" followed
by 0xD800 with logical length covering all six units displays as
"Hello" followed by one replacement character. -/
theorem C7_display_replacement :
    (∀ s : OwnedUnicodeString,
      s.unicode_string.Buffer = s.buffer.allocId →
      s.unicode_string.Length / 2 ≤ s.buffer.data.length →
      s.display = some (decodeUtf16Repl
        (s.buffer.data.take (s.unicode_string.Length / 2)))) ∧
    (∀ us : List Nat, (∀ u ∈ us, u < 55296 ∨ 57343 < u) →
      decodeUtf16Repl (us ++ [55296]) = us ++ [65533]) ∧
    (OwnedUnicodeString.fromVec ⟨0, 6, [72, 101, 108, 108, 111, 55296]⟩).display =
      some [72, 101, 108, 108, 111, 65533] := by
  refine ⟨?_, decodeUtf16Repl_append_high, ?_⟩
  · intro s h1 h2
    unfold OwnedUnicodeString.display readBuffer
    rw [if_pos ⟨h1, h2⟩]
    rfl
  · decide

/-- Witness for C7 at the buffer built from "H" and at the unit list
[72, 0xD800]. -/
theorem C7_display_replacement_witness :
    (OwnedUnicodeString.fromStr [72]).display =
      some (decodeUtf16Repl ((OwnedUnicodeString.fromStr [72]).buffer.data.take
        ((OwnedUnicodeString.fromStr [72]).unicode_string.Length / 2))) ∧
    decodeUtf16Repl ([72] ++ [55296]) = [72] ++ [65533] :=
  ⟨C7_display_replacement.1 (OwnedUnicodeString.fromStr [72]) (by decide) (by decide),
   C7_display_replacement.2.1 [72] (by decide)⟩

/-- C8 counterexample: U+0000 is a well-formed (non-surrogate) scalar
value, yet the buffer built from the one-character text consisting of
U+0000 displays as the empty text, because recompute strips the trailing
zero unit from the logical length; so the round trip fails as stated. -/
theorem C8_counterexample :
    (∀ c ∈ ([0] : List Nat), c < 1114112 ∧ (c < 55296 ∨ 57343 < c)) ∧
    (OwnedUnicodeString.fromStr [0]).display ≠ some [0] := by
  constructor
  · decide
  · decide

/-- C8 (amended): for every text of well-formed scalar values whose UTF-16
encoding fits in 32767 units and whose last character is not U+0000
(trailing zero units are stripped by recompute), displaying the buffer
built from the text yields the text back, surrogate pairs included. -/
theorem C8_display_roundtrip (t : List Nat)
    (hwf : ∀ c ∈ t, c < 1114112 ∧ (c < 55296 ∨ 57343 < c))
    (hlast : t.getLast? ≠ some 0)
    (hlen : (encodeUtf16 t).length ≤ 32767) :
    (OwnedUnicodeString.fromStr t).display = some t := by
  have hE : (encodeUtf16 t).getLast? ≠ some 0 := getLast?_encodeUtf16 t hlast
  have htr : trailingRun (encodeUtf16 t) = 0 := trailingRun_eq_zero _ hE
  have hbuf : (OwnedUnicodeString.fromStr t).buffer.data = encodeUtf16 t := by
    unfold OwnedUnicodeString.fromStr
    rw [fromVec_buffer, RVec_data_mk]
  have hL : (OwnedUnicodeString.fromStr t).unicode_string.Length =
      (encodeUtf16 t).length * 2 := by
    unfold OwnedUnicodeString.fromStr
    have h2 : (RVec.mk 0 (encodeUtf16 t).length (encodeUtf16 t)).data.length * 2 < 65536 := by
      rw [RVec_data_mk]
      omega
    rw [fromVec_Length_of_no_overflow _ h2, RVec_data_mk, htr]
    omega
  unfold OwnedUnicodeString.display readBuffer
  rw [hL, hbuf]
  have hptr : (OwnedUnicodeString.fromStr t).unicode_string.Buffer =
      (OwnedUnicodeString.fromStr t).buffer.allocId := rfl
  have hbound : (encodeUtf16 t).length * 2 / 2 ≤ (encodeUtf16 t).length := by omega
  rw [if_pos ⟨hptr, hbound⟩]
  have hdiv : (encodeUtf16 t).length * 2 / 2 = (encodeUtf16 t).length := by omega
  rw [hdiv, List.take_length]
  show some (decodeUtf16Repl (encodeUtf16 t)) = some t
  rw [decodeUtf16Repl_encodeUtf16 t hwf]

/-- Witness for C8 at the two-character text "H😀" (one BMP character and
one character outside the basic plane). -/
theorem C8_display_roundtrip_witness :
    (∀ c ∈ ([72, 128512] : List Nat), c < 1114112 ∧ (c < 55296 ∨ 57343 < c)) ∧
    ([72, 128512] : List Nat).getLast? ≠ some 0 ∧
    (encodeUtf16 [72, 128512]).length ≤ 32767 ∧
    (OwnedUnicodeString.fromStr [72, 128512]).display = some [72, 128512] :=
  ⟨by decide, by decide, by decide,
   C8_display_roundtrip [72, 128512] (by decide) (by decide) (by decide)⟩

/-- C10: concatenating the buffer built from the empty text on the right of
any buffer whose descriptor fields already satisfy the recompute fixpoint
leaves the code units unchanged and produces a buffer equal (in the
crate's equality) to the original. -/
theorem C10_concat_empty_identity (a : OwnedUnicodeString)
    (h : a.compute_size = a) :
    ∃ r, a.add (OwnedUnicodeString.fromStr []) = some r ∧
      r.buffer.data = a.buffer.data ∧ r.beq a = some true := by
  have hslice : readBuffer (OwnedUnicodeString.fromStr [])
      ((OwnedUnicodeString.fromStr []).unicode_string.Length / 2) = some [] := by decide
  have hdata : ({ a with buffer := a.buffer.extend [] } : OwnedUnicodeString).buffer.data =
      a.buffer.data := by
    show (a.buffer.extend []).data = a.buffer.data
    unfold RVec.extend
    split <;> simp
  have hble : a.unicode_string.Length / 2 ≤ a.buffer.data.length := by
    have hx := compute_size_Length_div_two_le a
    rw [h] at hx
    exact hx
  refine ⟨OwnedUnicodeString.compute_size { a with buffer := a.buffer.extend [] },
    ?_, ?_, ?_⟩
  · unfold OwnedUnicodeString.add
    rw [hslice]
    rfl
  · rw [compute_size_buffer]
    exact hdata
  · have hLr : (OwnedUnicodeString.compute_size
        { a with buffer := a.buffer.extend [] }).unicode_string.Length =
          a.unicode_string.Length := by
      rw [compute_size_Length, hdata, ← compute_size_Length a, h]
    unfold OwnedUnicodeString.beq
    rw [hLr, compute_size_buffer, hdata]
    rw [if_pos ⟨hble, hble⟩]
    simp

/-- Witness for C10 at the buffer built from "H". -/
theorem C10_concat_empty_identity_witness :
    (OwnedUnicodeString.fromStr [72]).compute_size = OwnedUnicodeString.fromStr [72] ∧
    ∃ r, (OwnedUnicodeString.fromStr [72]).add (OwnedUnicodeString.fromStr []) = some r ∧
      r.buffer.data = (OwnedUnicodeString.fromStr [72]).buffer.data ∧
      r.beq (OwnedUnicodeString.fromStr [72]) = some true :=
  ⟨by decide, C10_concat_empty_identity (OwnedUnicodeString.fromStr [72]) (by decide)⟩
